import Mathlib

/-!
# Verification of the `grouper` library (shallow embedding)

This file embeds, in Lean 4, the timestamped-data grouping library consisting
of `grouper.py` (Block, BlockArrLike, Counter, History, Neighborhood, Window),
`buffer.py` (BlockBuffer) and `combiner.py` (Combiner), and proves or refutes
the stated properties of the library's specification against this embedding.

Conventions of the embedding:
* times are rationals (`ℚ`): the Python code is generic over any time type
  supporting `+`, `-`, `*`, `/` and ordering, and callers supply floats;
  exact rational arithmetic models that faithfully;
* datum payloads are `ℕ` (the code treats them as opaque);
* topics of the multi-stream `Combiner` are `ℕ` (the code uses strings; only
  decidable equality of topic names is ever used);
* Python dictionaries keyed by topic become total functions `ℕ → _` with
  pointwise update (`fupd`); the code only ever reads keys it wrote;
* methods that can raise return `Except PyErr _`; a raised exception aborts
  the method, so state mutations preceding a raise are noted in comments;
* unbounded `while` loops become fuel-bounded recursions; the fuel passed at
  each call site is chosen large enough to reach the loop's exit condition
  whenever the Python loop terminates (i.e. when `window_duration > 0`).
-/

/-- Runtime errors that the Python methods can raise. -/
inductive PyErr where
  | stopIteration
  | indexError
  | nameError
  | attributeError
  | typeError
  | zeroDivisionError
deriving DecidableEq

/-- Pointwise update of a function, modelling `d[k] = v` on a Python dict. -/
def fupd {α : Type} (f : ℕ → α) (k : ℕ) (v : α) : ℕ → α :=
  fun k' => if k' = k then v else f k'

/-- Truncation toward zero, modelling Python's `int()` applied to a number. -/
def pyint (q : ℚ) : ℤ :=
  if q < 0 then ⌈q⌉ else ⌊q⌋

/-! ## `combiner.py`: class `Combiner`

One entry of `Combiner._windows` (a Python dict with fixed keys). -/

structure CWindow where
  data : ℕ → Option ℕ
  start_time : ℚ
  end_time : ℚ
  statuses : ℕ → Bool
  overlaps : ℕ → ℚ

/-- The state of a `Combiner` instance.  `inited` is the source's
`self._initialized` dict. -/
structure Combiner where
  next_start : ℚ
  window_duration : ℚ
  topics : List ℕ
  inited : ℕ → Bool
  windows : List CWindow

/-- `Combiner.__init__(start_time, window_duration, topics)`. -/
def Combiner.init (start_time window_duration : ℚ) (topics : List ℕ) : Combiner :=
  { next_start := start_time
    window_duration := window_duration
    topics := topics
    inited := fun _ => false
    windows := [] }

/-- `Combiner._add_window`: append a blank window at `next_start`, advance
`next_start` by one window duration. -/
def Combiner.addWindow (c : Combiner) : Combiner :=
  { c with
    windows := c.windows ++
      [{ data := fun _ => none
         start_time := c.next_start
         end_time := c.next_start + c.window_duration
         statuses := fun _ => false
         overlaps := fun _ => 0 }]
    next_start := c.next_start + c.window_duration }

/-- `Combiner._is_window_ready`: all topic statuses of the window are true.
(`all(window['statuses'].values())` ranges over exactly the topic keys.) -/
def Combiner.isWindowReady (topics : List ℕ) (w : CWindow) : Bool :=
  topics.all fun t => w.statuses t

/-- `Combiner._overlap(start, end, w_start, w_end)`: the proportion of
`[w_start, w_end]` covered by `[start, end]`.  (Python would raise
`ZeroDivisionError` for a zero-duration window; in `ℚ`, division by zero
yields `0` — all uses in this file have `w_start < w_end`.) -/
def Combiner.overlapFrac (start «end» w_start w_end : ℚ) : ℚ :=
  if start > w_end ∨ «end» < w_start then 0
  else (min «end» w_end - max start w_start) / (w_end - w_start)

/-- The first-contact block at the top of `Combiner.put` (run once per topic):
mark the topic initialized, drop leading windows that end before the datum's
start, and fast-forward `next_start` by a whole number of window durations if
the datum starts past it.  `int(diff / duration)` is Python truncation,
modelled by `pyint`. -/
def Combiner.initFirst (c : Combiner) (t : ℕ) (s : ℚ) : Combiner :=
  let c1 : Combiner := { c with inited := fupd c.inited t true }
  let c2 : Combiner :=
    { c1 with windows := c1.windows.dropWhile fun w => decide (s > w.end_time) }
  if s > c2.next_start then
    { c2 with next_start :=
        c2.next_start + c2.window_duration * ((pyint ((s - c2.next_start) / c2.window_duration) : ℤ) : ℚ) }
  else c2

/-- The effect of the scan loop of `Combiner.put` on a single window it
reaches: mark ready if the window ends at/before the datum's start, leave
untouched if the window starts after the datum's end, otherwise record the
datum when its overlap strictly exceeds the best overlap stored so far. -/
def Combiner.stepW (t d : ℕ) (s e : ℚ) (w : CWindow) : CWindow :=
  if w.end_time ≤ s then { w with statuses := fupd w.statuses t true }
  else if w.start_time > e then w
  else
    let o := Combiner.overlapFrac s e w.start_time w.end_time
    if o > w.overlaps t then
      { w with data := fupd w.data t (some d), overlaps := fupd w.overlaps t o }
    else w

/-- The `for window in self._windows` loop of `Combiner.put`, including its
`break` (which leaves the remaining windows untouched). -/
def Combiner.scan (t d : ℕ) (s e : ℚ) : List CWindow → List CWindow
  | [] => []
  | w :: ws =>
    if w.end_time ≤ s then
      Combiner.stepW t d s e w :: Combiner.scan t d s e ws
    else if w.start_time > e then w :: ws
    else Combiner.stepW t d s e w :: Combiner.scan t d s e ws

/-- The `while self._windows[-1]['start_time'] <= end_time: self._add_window()`
loop of `Combiner.put`, fuel-bounded.  The empty-windows case cannot occur at
the call site (`put` has just ensured a window exists); Python would raise
`IndexError` there. -/
def Combiner.addWindowsFuel : ℕ → Combiner → ℚ → Combiner
  | 0, c, _ => c
  | n + 1, c, e =>
    match c.windows.getLast? with
    | none => c
    | some w =>
      if w.start_time ≤ e then Combiner.addWindowsFuel n c.addWindow e else c

/-- `Combiner.put(topic, datum, start_time, end_time)`.  The fuel for the
window-creation loop is one more than the number of windows the loop can add
when `window_duration > 0`. -/
def Combiner.put (c : Combiner) (t d : ℕ) (s e : ℚ) : Combiner :=
  let c1 := if c.inited t then c else c.initFirst t s
  let c2 := if c1.windows.isEmpty then c1.addWindow else c1
  match c2.windows with
  | [] => c2
  | w0 :: _ =>
    if e < w0.start_time then c2
    else
      let fuel := (⌈(e - c2.next_start) / c2.window_duration⌉).toNat + 2
      let c3 := Combiner.addWindowsFuel fuel c2 e
      { c3 with windows := Combiner.scan t d s e c3.windows }

/-- `Combiner.next`.  The source reads `self._windows[0]` with no emptiness
check, so an empty window queue raises `IndexError`, not `StopIteration`. -/
def Combiner.next (c : Combiner) :
    Except PyErr ((ℕ → Option ℕ) × ℚ × ℚ × Combiner) :=
  match c.windows with
  | [] => Except.error PyErr.indexError
  | w :: rest =>
    if Combiner.isWindowReady c.topics w then
      Except.ok (w.data, w.start_time, w.end_time, { c with windows := rest })
    else Except.error PyErr.stopIteration

/-! ## `grouper.py`: class `Block` -/

structure Block where
  block_size : ℤ
  output_buffer : List (List ℕ × ℚ × ℚ)
  data : List ℕ
  start_time : Option ℚ
  end_time : Option ℚ

/-- `Block.__init__(block_size)`.  Its first statement is
`self._block_size = self._block_size`, which reads an attribute that has never
been assigned: Python raises `AttributeError`, so no `Block` can ever be
constructed.  (Were that line reached past, `self._reset_data()` would also
raise `TypeError`: `_reset_data` is defined without a `self` parameter.) -/
def Block.init (_block_size : ℤ) : Except PyErr Block :=
  Except.error PyErr.attributeError

/-- `Block.next`: pop the oldest completed block, `StopIteration` if none. -/
def Block.next (b : Block) : Except PyErr ((List ℕ × ℚ × ℚ) × Block) :=
  match b.output_buffer with
  | [] => Except.error PyErr.stopIteration
  | x :: rest => Except.ok (x, { b with output_buffer := rest })

/-- `Block.put(datum, start_time, end_time)`: append the datum; when the
accumulator reaches `block_size` the completed block is queued and
`self._reset_data()` is called — which raises `TypeError` (`_reset_data` takes
no `self`), after the block was already appended to the output queue. -/
def Block.put (b : Block) (d : ℕ) (s e : ℚ) : Except PyErr Block :=
  let b1 : Block :=
    { b with
      data := b.data ++ [d]
      start_time := match b.start_time with | none => some s | some x => some x
      end_time := some e }
  if (b1.data.length : ℤ) = b1.block_size then
    Except.error PyErr.typeError
  else Except.ok b1

/-! ## `grouper.py`: class `Counter` -/

structure Counter where
  is_valid : ℕ → Bool
  counter : ℕ
  buffer : List (ℕ × ℚ × ℚ)

/-- `Counter.__init__(is_valid)`. -/
def Counter.init (is_valid : ℕ → Bool) : Counter :=
  { is_valid := is_valid, counter := 0, buffer := [] }

/-- `Counter.next`: pop the oldest `(count, start, end)` entry, FIFO. -/
def Counter.next (c : Counter) : Except PyErr ((ℕ × ℚ × ℚ) × Counter) :=
  match c.buffer with
  | [] => Except.error PyErr.stopIteration
  | x :: rest => Except.ok (x, { c with buffer := rest })

/-- `Counter.put(datum, start_time, end_time)`: enqueue the current counter
with the datum's interval, then bump or reset the counter. -/
def Counter.put (c : Counter) (d : ℕ) (s e : ℚ) : Counter :=
  let c1 : Counter := { c with buffer := c.buffer ++ [(c.counter, s, e)] }
  if c1.is_valid d then { c1 with counter := c1.counter + 1 }
  else { c1 with counter := 0 }

/-! ## `grouper.py`: class `History` -/

structure History where
  length : ℕ
  data : List ℕ
  times : List (ℚ × ℚ)

/-- `History.__init__(length)`. -/
def History.init (length : ℕ) : History :=
  { length := length, data := [], times := [] }

/-- `History.next`: when strictly more than `length` data are buffered, return
the oldest `length` of them stamped with the times of the first datum after
them, and drop the oldest entry; else `StopIteration`.  (If `times` were
shorter than `length + 1` while `data` is not — impossible for states reached
through `put` — the indexing `self._times[self._length]` would raise
`IndexError`.) -/
def History.next (h : History) : Except PyErr ((List ℕ × ℚ × ℚ) × History) :=
  if h.data.length ≤ h.length then Except.error PyErr.stopIteration
  else
    match h.times[h.length]? with
    | none => Except.error PyErr.indexError
    | some (s, e) =>
      Except.ok ((h.data.take h.length, s, e),
        { h with data := h.data.drop 1, times := h.times.drop 1 })

/-- `History.put(datum, start_time, end_time)`: append unconditionally. -/
def History.put (h : History) (d : ℕ) (s e : ℚ) : History :=
  { h with data := h.data ++ [d], times := h.times ++ [(s, e)] }

/-! ## `grouper.py`: class `Neighborhood` -/

/-- One record of `Neighborhood._buffer` (keys `'datum'`, `'start_time'`,
`'end_time'`, `'handled'`). -/
structure NbRec where
  datum : ℕ
  start_time : ℚ
  end_time : ℚ
  handled : Bool

structure Neighborhood where
  is_valid : List ℕ → Bool
  length : ℕ
  buffer : List NbRec
  output_buffer : List (Bool × ℚ × ℚ)

/-- `Neighborhood.__init__(is_valid, length)`. -/
def Neighborhood.init (is_valid : List ℕ → Bool) (length : ℕ) : Neighborhood :=
  { is_valid := is_valid, length := length, buffer := [], output_buffer := [] }

/-- `Neighborhood.next`: pop the oldest `(verdict, start, end)` entry. -/
def Neighborhood.next (n : Neighborhood) :
    Except PyErr ((Bool × ℚ × ℚ) × Neighborhood) :=
  match n.output_buffer with
  | [] => Except.error PyErr.stopIteration
  | x :: rest => Except.ok (x, { n with output_buffer := rest })

/-- `Neighborhood.put(datum, start_time, end_time)`: the record is appended,
then the guard `if len(self._buffer) == self.length:` reads `self.length` —
but the only attribute set by the constructor is `self._length`, so every call
raises `AttributeError` right after the append.  (The raise aborts `put`; the
appended record stays on the Python object's buffer.  Inside the dead guarded
block, `x['data']` would additionally raise `KeyError`: records are stored
under the key `'datum'`.) -/
def Neighborhood.put (n : Neighborhood) (d : ℕ) (s e : ℚ) :
    Except PyErr Neighborhood :=
  let _n1 : Neighborhood :=
    { n with buffer := n.buffer ++ [{ datum := d, start_time := s, end_time := e, handled := false }] }
  Except.error PyErr.attributeError

/-! ## `grouper.py`: class `Window` -/

/-- One window of `Window` (`self._current` or an entry of `self._windows`). -/
structure WEntry where
  start_time : ℚ
  end_time : ℚ
  data : List ℕ

structure Window where
  start_time : ℚ
  window_duration : ℚ
  windows : List WEntry
  current : Option WEntry

/-- `Window.__init__(start_time, window_duration)`. -/
def Window.init (start_time window_duration : ℚ) : Window :=
  { start_time := start_time, window_duration := window_duration
    windows := [], current := none }

/-- `Window.next`: pop the oldest shipped window, `StopIteration` if none. -/
def Window.next (w : Window) : Except PyErr ((List ℕ × ℚ × ℚ) × Window) :=
  match w.windows with
  | [] => Except.error PyErr.stopIteration
  | x :: rest => Except.ok ((x.data, x.start_time, x.end_time), { w with windows := rest })

/-- `Window._initialize_current`: its first statement,
`if start_time > self._start_time:`, reads the name `start_time`, which is
neither a parameter of this method, nor a local, nor a module global: Python
raises `NameError` on every call.  (The intended snap-forward logic below that
line is unreachable.) -/
def Window.initCurrent (_w : Window) : Except PyErr Window :=
  Except.error PyErr.nameError

/-- `Window._send_current`: ship the current window and open the next one. -/
def Window.sendCurrent (dur : ℚ) (ws : List WEntry) (cur : WEntry) :
    List WEntry × WEntry :=
  (ws ++ [cur], { start_time := cur.end_time, end_time := cur.end_time + dur, data := [] })

/-- The `while start_time > self._current['end_time']: self._send_current()`
loop of `Window.put`, fuel-bounded. -/
def Window.shipLoop : ℕ → ℚ → ℚ → List WEntry → WEntry → List WEntry × WEntry
  | 0, _, _, ws, cur => (ws, cur)
  | n + 1, dur, s, ws, cur =>
    if s > cur.end_time then
      let p := Window.sendCurrent dur ws cur
      Window.shipLoop n dur s p.1 p.2
    else (ws, cur)

/-- The `while end_time > self._current['end_time']` loop of `Window.put`:
append the datum to the current window, ship it, continue; fuel-bounded. -/
def Window.spanLoop : ℕ → ℚ → ℚ → ℕ → List WEntry → WEntry → List WEntry × WEntry
  | 0, _, _, _, ws, cur => (ws, cur)
  | n + 1, dur, e, d, ws, cur =>
    if e > cur.end_time then
      let p := Window.sendCurrent dur ws { cur with data := cur.data ++ [d] }
      Window.spanLoop n dur e d p.1 p.2
    else (ws, cur)

/-- `Window.put(datum, start_time, end_time)`: drop stale data, initialize the
first window on first use (which in this source always raises `NameError`, so
the loop section below is unreachable in any run), ship windows the datum has
passed, replicate the datum into every window it spans, and finally add it to
the window containing its end. -/
def Window.put (w : Window) (d : ℕ) (s e : ℚ) : Except PyErr Window :=
  if e < w.start_time then Except.ok w
  else do
    let w ← match w.current with
            | none => w.initCurrent
            | some _ => Except.ok w
    match w.current with
    | none => Except.ok w
    | some cur =>
      let fuel := (⌈(e - cur.end_time) / w.window_duration⌉).toNat + (⌈(s - cur.end_time) / w.window_duration⌉).toNat + 2
      let p1 := Window.shipLoop fuel w.window_duration s w.windows cur
      let p2 := Window.spanLoop fuel w.window_duration e d p1.1 p1.2
      Except.ok { w with windows := p2.1, current := some { p2.2 with data := p2.2.data ++ [d] } }

/-! ## `buffer.py`: class `BlockBuffer` -/

structure BlockBuffer where
  block_size : ℤ
  buffer : List ℕ

/-- Python list slicing `l[:k]` for an integer bound `k` (negative bounds
count from the end; out-of-range bounds clamp). -/
def pySliceTake (k : ℤ) (l : List ℕ) : List ℕ :=
  if k < 0 then l.take ((l.length : ℤ) + k).toNat else l.take k.toNat

/-- Python list slicing `l[k:]` for an integer bound `k`. -/
def pySliceDrop (k : ℤ) (l : List ℕ) : List ℕ :=
  if k < 0 then l.drop ((l.length : ℤ) + k).toNat else l.drop k.toNat

/-- `BlockBuffer.__init__(block_size)`: store the size and let `reset` empty
the buffer.  No validation of any kind is performed. -/
def BlockBuffer.init (block_size : ℤ) : BlockBuffer :=
  { block_size := block_size, buffer := [] }

/-- `BlockBuffer.reset`: empty the buffer. -/
def BlockBuffer.reset (b : BlockBuffer) : BlockBuffer :=
  { b with buffer := [] }

/-- `BlockBuffer.put(data)`: `self._buffer.append(data)` — appends its
argument as a single element. -/
def BlockBuffer.put (b : BlockBuffer) (d : ℕ) : BlockBuffer :=
  { b with buffer := b.buffer ++ [d] }

/-- `BlockBuffer.next`: `StopIteration` when fewer than `block_size` elements
are buffered, else split off the oldest `block_size`-element slice. -/
def BlockBuffer.next (b : BlockBuffer) : Except PyErr (List ℕ × BlockBuffer) :=
  if b.block_size > (b.buffer.length : ℤ) then Except.error PyErr.stopIteration
  else
    Except.ok (pySliceTake b.block_size b.buffer,
      { b with buffer := pySliceDrop b.block_size b.buffer })

/-- `BlockBuffer.num_blocks`: `int(len(self._buffer) / self._block_size)` —
Python 2 floor division of ints; raises `ZeroDivisionError` when
`block_size = 0`. -/
def BlockBuffer.num_blocks (b : BlockBuffer) : Except PyErr ℤ :=
  if b.block_size = 0 then Except.error PyErr.zeroDivisionError
  else Except.ok (Int.fdiv (b.buffer.length : ℤ) b.block_size)

/-- `BlockBuffer.get_all`: `return self._buffer` — returns the buffered
elements (complete blocks and the trailing incomplete chunk alike) and leaves
the buffer untouched; nothing is cleared. -/
def BlockBuffer.get_all (b : BlockBuffer) : List ℕ × BlockBuffer :=
  (b.buffer, b)

/-! ## Derived run/consume functions used by the verification -/

/-- Repeatedly call `History.next` until it signals `StopIteration`
(fuel-bounded by the buffer size, which strictly decreases on success). -/
def History.drainFuel : ℕ → History → History
  | 0, h => h
  | n + 1, h =>
    match h.next with
    | Except.ok (_, h') => History.drainFuel n h'
    | Except.error _ => h

/-- Call `History.next` until `StopIteration`: the pull-until-not-ready
consumption discipline.  `data.length` steps of fuel always suffice. -/
def History.drain (h : History) : History :=
  History.drainFuel h.data.length h

/-- Feed a list of `(datum, start, end)` triples to a fresh `History` of the
given length, draining the output after every `put`. -/
def History.runDrain (L : ℕ) (xs : List (ℕ × ℚ × ℚ)) : History :=
  xs.foldl (fun h x => ((h.put x.1 x.2.1 x.2.2).drain)) (History.init L)

/-- Feed a list of `(datum, start, end)` triples to a fresh `Counter`. -/
def Counter.runAll (v : ℕ → Bool) (xs : List (ℕ × ℚ × ℚ)) : Counter :=
  xs.foldl (fun c x => c.put x.1 x.2.1 x.2.2) (Counter.init v)

/-- The output entries `Counter.put` generates from a list of inputs when the
counter currently stands at `k` (reference model for the proofs). -/
def counterOutputs (v : ℕ → Bool) (k : ℕ) : List (ℕ × ℚ × ℚ) → List (ℕ × ℚ × ℚ)
  | [] => []
  | (d, s, e) :: rest =>
    (k, s, e) :: counterOutputs v (if v d then k + 1 else 0) rest

/-- Folding the counter-update rule of `Counter.put` over a list of data,
starting from `k`. -/
def countAfter (v : ℕ → Bool) (k : ℕ) (l : List ℕ) : ℕ :=
  l.foldl (fun a d => if v d then a + 1 else 0) k

/-- Specification-side definition, from the spec's words: the length of the
maximal run of consecutive data at the end of `l` that all satisfy `v` — i.e.
the run of valid data immediately preceding the next datum to arrive. -/
def trailingValidRun (v : ℕ → Bool) (l : List ℕ) : ℕ :=
  (l.reverse.takeWhile v).length

/-! ## Concrete states used to evaluate the theorems on sample inputs -/

/-- A sample input stream for `Counter`: datum 1 is valid, datum 0 is not. -/
def counterXs : List (ℕ × ℚ × ℚ) := [(1, 0, 1), (1, 1, 2), (0, 2, 3), (1, 3, 4)]

/-- A blank combiner window over `[0, 10)`. -/
def exWindow : CWindow :=
  { data := fun _ => none, start_time := 0, end_time := 10
    statuses := fun _ => false, overlaps := fun _ => 0 }

/-- A blank combiner window over `[10, 20)`. -/
def exWindow2 : CWindow :=
  { exWindow with start_time := 10, end_time := 20 }

/-- A one-window combiner whose only topic `0` is initialized. -/
def exCombiner1 : Combiner :=
  { next_start := 10, window_duration := 10, topics := [0]
    inited := fun _ => true, windows := [exWindow] }

/-- A two-window combiner whose only topic `0` has not yet contributed. -/
def exCombiner2 : Combiner :=
  { next_start := 20, window_duration := 10, topics := [0]
    inited := fun _ => false, windows := [exWindow, exWindow2] }

/-! ## Basic lemmas -/

@[simp]
theorem fupd_same {α : Type} (f : ℕ → α) (k : ℕ) (v : α) : fupd f k v k = v := by
  simp [fupd]

@[simp]
theorem fupd_other {α : Type} (f : ℕ → α) (k k' : ℕ) (v : α) (h : k' ≠ k) :
    fupd f k v k' = f k' := by
  simp [fupd, h]

/-! ## Claim C3 -/

/-- C3: the claim says that pulling (`next`) when no completed group is
available always signals not-ready (`StopIteration`) and never fails
otherwise.  The code contradicts this (and `Combiner.next`'s own docstring):
`Combiner.next` indexes `self._windows[0]` without checking for emptiness, so
a `Combiner` whose window queue is empty — e.g. a freshly constructed one —
raises `IndexError` instead. -/
theorem combiner_next_empty_raises_index_error :
    (Combiner.init 0 10 [0]).next = Except.error PyErr.indexError := rfl

/-! ## Claim C4 -/

/-- C4: the claim describes the intended `FixedWindow` scenario
(`Window(0, 10)`; `put(A, 0, 5)`; `put(B, 12, 15)` emits `[0,10)` with `A`).
The code cannot run it: the very first `put` calls `_initialize_current`,
whose first statement reads the unbound name `start_time` and raises
`NameError` (to work, that method would need the datum's start time passed
in, as its docstring intends). -/
theorem window_first_put_raises_name_error :
    (Window.init 0 10).put 1 0 5 = Except.error PyErr.nameError := rfl

/-! ## Claim C5 -/

/-- C5: the claim describes `Neighborhood`'s documented verdict semantics.
The code cannot produce any verdict: every `put` evaluates
`len(self._buffer) == self.length` and the attribute read `self.length`
raises `AttributeError` (the constructor stores `self._length`; the guarded
block would further read `x['data']` although records are keyed `'datum'`).
So already the first `put` on a fresh `Neighborhood` fails. -/
theorem neighborhood_put_raises_attribute_error :
    (Neighborhood.init (fun _ => true) 2).put 7 0 1 =
      Except.error PyErr.attributeError := rfl

/-! ## Claim C6 -/

/-- C6: the claim describes the documented `Block` grouping behaviour
("every input datum appears in exactly 1 block").  No `Block` can be
constructed: `Block.__init__` begins with `self._block_size = self._block_size`,
reading an attribute never assigned, which raises `AttributeError` for every
`block_size` — here evaluated at `block_size = 3`. -/
theorem block_init_raises_attribute_error :
    Block.init 3 = Except.error PyErr.attributeError := rfl

/-! ## Claim C8 -/

/-- C8 counterexample: the claim says non-positive configuration fails at
construction with `InvalidConfig`.  There is no `InvalidConfig` (or any
validation) anywhere in the code: `BlockBuffer(0)` constructs successfully
and stores block size `0`, a `Window` with duration `0` constructs
successfully, and the degenerate configuration only surfaces later
(`num_blocks` raises `ZeroDivisionError`). -/
theorem blockbuffer_zero_size_constructs :
    BlockBuffer.init 0 = { block_size := 0, buffer := [] } ∧
    (Window.init 0 0).window_duration = 0 ∧
    (BlockBuffer.init 0).num_blocks = Except.error PyErr.zeroDivisionError :=
  ⟨rfl, rfl, rfl⟩

/-- C8 amended: construction performs no validation at all — any block size
(including zero and negative) and any window duration are accepted and stored
as-is, and failures from a degenerate size occur only on later operations. -/
theorem construction_is_unvalidated (bs : ℤ) (s dur : ℚ) :
    BlockBuffer.init bs = { block_size := bs, buffer := [] } ∧
    Window.init s dur =
      { start_time := s, window_duration := dur, windows := [], current := none } ∧
    (BlockBuffer.init 0).num_blocks = Except.error PyErr.zeroDivisionError :=
  ⟨rfl, rfl, rfl⟩

/-! ## Claim C9 -/

/-- C9 counterexample: the claim says `get_all` drains and clears the buffer,
after which `num_blocks` is `0` and `next` signals not-available.  The code
only does `return self._buffer`: after `put(5)` into a `BlockBuffer(1)` and a
`get_all` (which does return `[5]`), `num_blocks` is still `1` and `next`
still returns a block. -/
theorem get_all_does_not_clear :
    ((BlockBuffer.init 1).put 5).get_all.1 = [5] ∧
    ((BlockBuffer.init 1).put 5).get_all.2.num_blocks = Except.ok 1 ∧
    ((BlockBuffer.init 1).put 5).get_all.2.next =
      Except.ok ([5], { block_size := 1, buffer := [] }) :=
  ⟨rfl, rfl, rfl⟩

/-- C9 amended: `get_all` returns all currently buffered elements (complete
blocks and the trailing incomplete chunk alike) but does **not** clear the
buffer: the state is returned unchanged, so `num_blocks` and a subsequent
`next` behave exactly as before the call (only `reset` clears). -/
theorem get_all_returns_all_without_clearing (b : BlockBuffer) :
    b.get_all.1 = b.buffer ∧
    b.get_all.2.num_blocks = b.num_blocks ∧
    b.get_all.2.next = b.next ∧
    b.get_all.2 = b ∧
    b.reset.buffer = [] :=
  ⟨rfl, rfl, rfl, rfl, rfl⟩

/-! ## Claim C7 -/

/-- C7 counterexample: the claim says the `History` buffer never exceeds
`L + 1` pending items after *every* interleaved sequence of `put`/`next`.
`put` appends unconditionally and only `next` removes, so three `put`s into a
`History(1)` leave 3 > 1 + 1 items buffered. -/
theorem history_buffer_exceeds_bound :
    ((((History.init 1).put 1 0 1).put 2 1 2).put 3 2 3).data.length = 3 ∧
    ¬ ((((History.init 1).put 1 0 1).put 2 1 2).put 3 2 3).data.length ≤ 1 + 1 := by
  constructor
  · rfl
  · decide


/-- `History.put` grows both internal lists by one and keeps `length`. -/
theorem History.put_fields (h : History) (d : ℕ) (s e : ℚ) :
    (h.put d s e).data.length = h.data.length + 1 ∧
    (h.put d s e).times.length = h.times.length + 1 ∧
    (h.put d s e).length = h.length := by
  simp [History.put]

/-- Draining with enough fuel brings the buffer down to at most `length`
items, keeps `data`/`times` in sync and preserves the configured length. -/
theorem History.drainFuel_spec (n : ℕ) (h : History)
    (hsync : h.data.length = h.times.length)
    (hfuel : h.data.length ≤ h.length + n) :
    (History.drainFuel n h).data.length ≤ h.length ∧
    (History.drainFuel n h).data.length = (History.drainFuel n h).times.length ∧
    (History.drainFuel n h).length = h.length := by
  induction n generalizing h with
  | zero =>
    have hdf : History.drainFuel 0 h = h := rfl
    rw [hdf]
    exact ⟨by simpa using hfuel, hsync, rfl⟩
  | succ n ih =>
    by_cases hle : h.data.length ≤ h.length
    · have hnext : h.next = Except.error PyErr.stopIteration := by
        simp [History.next, hle]
      have hdf : History.drainFuel (n + 1) h = h := by
        simp only [History.drainFuel, hnext]
      rw [hdf]
      exact ⟨hle, hsync, rfl⟩
    · push_neg at hle
      have hlt : h.length < h.times.length := hsync ▸ hle
      obtain ⟨⟨ps, pe⟩, hp⟩ : ∃ p, h.times[h.length]? = some p :=
        ⟨h.times[h.length], List.getElem?_eq_getElem hlt⟩
      have hnext : h.next =
          Except.ok ((h.data.take h.length, ps, pe),
            { h with data := h.data.drop 1, times := h.times.drop 1 }) := by
        simp [History.next, hp, not_le.mpr hle]
      have hdf : History.drainFuel (n + 1) h =
          History.drainFuel n { h with data := h.data.drop 1, times := h.times.drop 1 } := by
        simp only [History.drainFuel, hnext]
      rw [hdf]
      have h1 : (h.data.drop 1).length = (h.times.drop 1).length := by
        simp [hsync]
      have h2 : (h.data.drop 1).length ≤ h.length + n := by
        simp only [List.length_drop]
        omega
      exact ih { h with data := h.data.drop 1, times := h.times.drop 1 } h1 h2

/-- Invariant of the put-then-drain loop: starting from a synced history whose
buffer is within bound, the buffer stays within bound after every round. -/
theorem History.foldDrain_inv (xs : List (ℕ × ℚ × ℚ)) (h : History)
    (hsync : h.data.length = h.times.length) (hlen : h.data.length ≤ h.length) :
    (xs.foldl (fun a x => ((a.put x.1 x.2.1 x.2.2).drain)) h).data.length ≤
      (xs.foldl (fun a x => ((a.put x.1 x.2.1 x.2.2).drain)) h).length ∧
    (xs.foldl (fun a x => ((a.put x.1 x.2.1 x.2.2).drain)) h).data.length =
      (xs.foldl (fun a x => ((a.put x.1 x.2.1 x.2.2).drain)) h).times.length ∧
    (xs.foldl (fun a x => ((a.put x.1 x.2.1 x.2.2).drain)) h).length = h.length := by
  induction xs generalizing h with
  | nil => exact ⟨hlen, hsync, rfl⟩
  | cons x xs ih =>
    obtain ⟨hd1, ht1, hl1⟩ := History.put_fields h x.1 x.2.1 x.2.2
    have hsync1 : (h.put x.1 x.2.1 x.2.2).data.length =
        (h.put x.1 x.2.1 x.2.2).times.length := by rw [hd1, ht1, hsync]
    obtain ⟨hb, hs, hl⟩ := History.drainFuel_spec (h.put x.1 x.2.1 x.2.2).data.length
      (h.put x.1 x.2.1 x.2.2) hsync1 (Nat.le_add_left _ _)
    have hb' : ((h.put x.1 x.2.1 x.2.2).drain).data.length ≤
        ((h.put x.1 x.2.1 x.2.2).drain).length :=
      le_trans hb (le_of_eq hl.symm)
    obtain ⟨r1, r2, r3⟩ := ih ((h.put x.1 x.2.1 x.2.2).drain) hs hb'
    refine ⟨r1, r2, ?_⟩
    rw [List.foldl_cons, r3]
    exact hl.trans hl1

/-- C7 amended: under the pull-until-not-ready consumption discipline
(`next` called until `StopIteration` after each `put`), a `History(L)` buffer
holds at most `L` items after each drain, hence at most `L + 1` items
immediately after the next `put`.  (Without that discipline the bound fails,
see the counterexample: `put` never removes anything.) -/
theorem history_drained_buffer_bound (L : ℕ) (xs : List (ℕ × ℚ × ℚ))
    (d : ℕ) (s e : ℚ) :
    (History.runDrain L xs).data.length ≤ L ∧
    ((History.runDrain L xs).put d s e).data.length ≤ L + 1 := by
  obtain ⟨h1, _, h3⟩ := History.foldDrain_inv xs (History.init L) rfl
    (by simp [History.init])
  have hbound : (History.runDrain L xs).data.length ≤ L :=
    le_trans h1 (le_of_eq h3)
  refine ⟨hbound, ?_⟩
  obtain ⟨hd, -, -⟩ := History.put_fields (History.runDrain L xs) d s e
  omega

/-! ## Claim C10: the `Counter` grouper -/

/-- Folding `Counter.put` over an input stream: the output queue receives the
`counterOutputs` entries in order and the counter ends at `countAfter`. -/
theorem Counter.fold_spec (v : ℕ → Bool) (xs : List (ℕ × ℚ × ℚ)) (c : Counter)
    (hv : c.is_valid = v) :
    (xs.foldl (fun a x => a.put x.1 x.2.1 x.2.2) c).buffer =
      c.buffer ++ counterOutputs v c.counter xs ∧
    (xs.foldl (fun a x => a.put x.1 x.2.1 x.2.2) c).counter =
      countAfter v c.counter (xs.map (fun y => y.1)) ∧
    (xs.foldl (fun a x => a.put x.1 x.2.1 x.2.2) c).is_valid = v := by
  induction xs generalizing c with
  | nil => simp [countAfter, counterOutputs, hv]
  | cons x xs ih =>
    obtain ⟨d, s, e⟩ := x
    have hput : c.put d s e =
        { is_valid := c.is_valid
          counter := if v d then c.counter + 1 else 0
          buffer := c.buffer ++ [(c.counter, s, e)] } := by
      simp only [Counter.put, hv]
      by_cases hd : v d <;> simp [hd]
    obtain ⟨b1, k1, v1⟩ := ih (c.put d s e) (by rw [hput]; exact hv)
    refine ⟨?_, ?_, v1⟩
    · rw [List.foldl_cons, b1, hput]
      simp [counterOutputs]
    · rw [List.foldl_cons, k1, hput]
      simp [countAfter]

/-- `counterOutputs` yields exactly one entry per input. -/
theorem counterOutputs_length (v : ℕ → Bool) (k : ℕ) (xs : List (ℕ × ℚ × ℚ)) :
    (counterOutputs v k xs).length = xs.length := by
  induction xs generalizing k with
  | nil => rfl
  | cons x xs ih =>
    obtain ⟨d, s, e⟩ := x
    simp [counterOutputs, ih]

/-- The `i`-th entry `counterOutputs` emits carries the `i`-th datum's times
and the counter value accumulated over the preceding data. -/
theorem counterOutputs_getElem (v : ℕ → Bool) (xs : List (ℕ × ℚ × ℚ)) (k : ℕ)
    (i : ℕ) (x : ℕ × ℚ × ℚ) (hx : xs[i]? = some x) :
    (counterOutputs v k xs)[i]? =
      some (countAfter v k ((xs.take i).map (fun y => y.1)), x.2.1, x.2.2) := by
  induction xs generalizing k i with
  | nil => simp at hx
  | cons y ys ih =>
    obtain ⟨d, s, e⟩ := y
    cases i with
    | zero =>
      simp only [List.getElem?_cons_zero, Option.some.injEq] at hx
      subst hx
      simp [counterOutputs, countAfter]
    | succ i =>
      simp only [List.getElem?_cons_succ] at hx
      simpa [counterOutputs, countAfter] using ih (if v d then k + 1 else 0) i hx

/-- Seeding the counter fold with `0` computes the trailing all-valid run. -/
theorem countAfter_zero_eq_trailing (v : ℕ → Bool) (l : List ℕ) :
    countAfter v 0 l = trailingValidRun v l := by
  induction l using List.reverseRecOn with
  | nil => rfl
  | append_singleton l d ih =>
    have ih' : List.foldl (fun a x => if v x then a + 1 else 0) 0 l =
        (List.takeWhile v l.reverse).length := ih
    rw [countAfter, List.foldl_append, trailingValidRun, List.reverse_append]
    by_cases hd : v d <;> simp [hd, List.takeWhile_cons, ih']

/-- C10: for the `Counter` grouper, every `put` enqueues exactly one
immediately available entry; the entry for the `i`-th datum carries that
datum's start and end times and a count equal to the length of the maximal
run of consecutive valid data immediately preceding it; in particular the
first entry pulled by `next` always carries count `0`. -/
theorem counter_run_spec (v : ℕ → Bool) (xs : List (ℕ × ℚ × ℚ)) :
    (Counter.runAll v xs).buffer.length = xs.length ∧
    (∀ i x, xs[i]? = some x →
      (Counter.runAll v xs).buffer[i]? =
        some (trailingValidRun v ((xs.take i).map (fun y => y.1)), x.2.1, x.2.2)) ∧
    (∀ x, xs.head? = some x →
      ∃ c', (Counter.runAll v xs).next = Except.ok ((0, x.2.1, x.2.2), c')) := by
  obtain ⟨hb, -, -⟩ := Counter.fold_spec v xs (Counter.init v) rfl
  have hbuf : (Counter.runAll v xs).buffer = counterOutputs v 0 xs := by
    rw [Counter.runAll, hb]
    rfl
  refine ⟨by rw [hbuf, counterOutputs_length], ?_, ?_⟩
  · intro i x hx
    rw [hbuf, counterOutputs_getElem v xs 0 i x hx, countAfter_zero_eq_trailing]
  · intro x hx
    have hx0 : xs[0]? = some x := by
      cases xs with
      | nil => simp at hx
      | cons y ys => simpa using hx
    have h0 : (Counter.runAll v xs).buffer[0]? =
        some (trailingValidRun v (([] : List ℕ)), x.2.1, x.2.2) := by
      rw [hbuf, counterOutputs_getElem v xs 0 0 x hx0, countAfter_zero_eq_trailing]
      simp
    cases hcb : (Counter.runAll v xs).buffer with
    | nil => rw [hcb] at h0; simp at h0
    | cons b bs =>
      rw [hcb] at h0
      simp only [List.getElem?_cons_zero, Option.some.injEq] at h0
      refine ⟨{ Counter.runAll v xs with buffer := bs }, ?_⟩
      simp [Counter.next, hcb, h0, trailingValidRun]

/-- C10 witness: on the sample stream `counterXs` with validity `d = 1`, the
third datum (index 2) exists and its emitted entry counts the two valid data
preceding it and carries its interval `[2, 3]`. -/
theorem counter_run_spec_witness :
    counterXs[2]? = some (0, 2, 3) ∧
    (Counter.runAll (fun d => d == 1) counterXs).buffer[2]? = some (2, 2, 3) ∧
    counterXs.head? = some (1, 0, 1) ∧
    (∃ c', (Counter.runAll (fun d => d == 1) counterXs).next =
      Except.ok ((0, 0, 1), c')) := by
  refine ⟨rfl, ?_, rfl, ?_⟩
  · exact (counter_run_spec (fun d => d == 1) counterXs).2.1 2 (0, 2, 3) rfl
  · exact (counter_run_spec (fun d => d == 1) counterXs).2.2 (1, 0, 1) rfl

/-! ## Claim C2: first contact of a topic with the `Combiner` -/

/-- `stepW` never changes a window's boundaries, only its per-topic entries. -/
theorem Combiner.stepW_times (t d : ℕ) (s e : ℚ) (w : CWindow) :
    (Combiner.stepW t d s e w).start_time = w.start_time ∧
    (Combiner.stepW t d s e w).end_time = w.end_time := by
  simp only [Combiner.stepW]
  split_ifs <;> exact ⟨rfl, rfl⟩

/-- On a list sorted by window end time, dropping the leading windows that
end before `s` removes exactly the windows that end before `s`. -/
theorem dropWhile_end_eq_filter (s : ℚ) (L : List CWindow)
    (hsort : L.Pairwise fun a b => a.end_time ≤ b.end_time) :
    (L.dropWhile fun w => decide (s > w.end_time)) =
      L.filter fun w => decide (s ≤ w.end_time) := by
  induction L with
  | nil => rfl
  | cons w ws ih =>
    rw [List.pairwise_cons] at hsort
    obtain ⟨hw, hws⟩ := hsort
    by_cases h : s > w.end_time
    · have hd1 : decide (s > w.end_time) = true := decide_eq_true h
      have hd2 : decide (s ≤ w.end_time) = false := decide_eq_false (not_le.mpr h)
      rw [List.dropWhile_cons, List.filter_cons, hd1, hd2,
        if_pos rfl, if_neg Bool.false_ne_true]
      exact ih hws
    · have h' : s ≤ w.end_time := not_lt.mp h
      have hd1 : decide (s > w.end_time) = false := decide_eq_false h
      have hd2 : decide (s ≤ w.end_time) = true := decide_eq_true h'
      have hall : ∀ b ∈ ws, decide (s ≤ b.end_time) = true :=
        fun b hb => decide_eq_true (le_trans h' (hw b hb))
      rw [List.dropWhile_cons, List.filter_cons, hd1, hd2,
        if_neg Bool.false_ne_true, if_pos rfl, List.filter_eq_self.mpr hall]

/-- The window list after a topic's first contact: exactly the windows not
ending strictly before the datum's start survive, in order. -/
theorem Combiner.initFirst_windows (c : Combiner) (t : ℕ) (s : ℚ)
    (hsort : c.windows.Pairwise fun a b => a.end_time ≤ b.end_time) :
    (c.initFirst t s).windows =
      c.windows.filter fun w => decide (s ≤ w.end_time) := by
  rw [Combiner.initFirst]
  by_cases h : s > c.next_start <;>
    simp [h, dropWhile_end_eq_filter s c.windows hsort]

/-- First contact does not move `next_start` when the datum does not start
past it. -/
theorem Combiner.initFirst_next_start_stay (c : Combiner) (t : ℕ) (s : ℚ)
    (hs : ¬ s > c.next_start) :
    (c.initFirst t s).next_start = c.next_start := by
  rw [Combiner.initFirst]
  simp [hs]

/-- The fast-forward of `next_start` at first contact: when the datum starts
past `next_start`, the pointer advances by a whole number of window durations
to the largest value not overshooting the datum's start. -/
theorem Combiner.initFirst_next_start_ff (c : Combiner) (t : ℕ) (s : ℚ)
    (hdur : 0 < c.window_duration) (hs : s > c.next_start) :
    (c.initFirst t s).next_start ≤ s ∧
    s < (c.initFirst t s).next_start + c.window_duration ∧
    ∃ k : ℤ, (c.initFirst t s).next_start = c.next_start + c.window_duration * k := by
  have hq : (0 : ℚ) ≤ (s - c.next_start) / c.window_duration :=
    div_nonneg (sub_pos.mpr hs).le hdur.le
  have hval : (c.initFirst t s).next_start =
      c.next_start + c.window_duration * ((⌊(s - c.next_start) / c.window_duration⌋ : ℤ) : ℚ) := by
    rw [Combiner.initFirst]
    simp [hs, pyint, not_lt.mpr hq]
  have hcancel : c.window_duration * ((s - c.next_start) / c.window_duration) =
      s - c.next_start := mul_div_cancel₀ _ (ne_of_gt hdur)
  refine ⟨?_, ?_, ⟨⌊(s - c.next_start) / c.window_duration⌋, hval⟩⟩
  · rw [hval]
    have h1 : c.window_duration * ((⌊(s - c.next_start) / c.window_duration⌋ : ℤ) : ℚ) ≤
        c.window_duration * ((s - c.next_start) / c.window_duration) :=
      mul_le_mul_of_nonneg_left (Int.floor_le _) hdur.le
    linarith [hcancel]
  · rw [hval]
    have h2 : (s - c.next_start) / c.window_duration <
        ((⌊(s - c.next_start) / c.window_duration⌋ : ℤ) : ℚ) + 1 :=
      Int.lt_floor_add_one _
    have h3 : c.window_duration * ((s - c.next_start) / c.window_duration) <
        c.window_duration * (((⌊(s - c.next_start) / c.window_duration⌋ : ℤ) : ℚ) + 1) :=
      (mul_lt_mul_left hdur).mpr h2
    rw [hcancel] at h3
    linarith

/-- `initFirst` marks the topic initialized and keeps the configuration. -/
theorem Combiner.initFirst_fields (c : Combiner) (t : ℕ) (s : ℚ) :
    (c.initFirst t s).window_duration = c.window_duration ∧
    (c.initFirst t s).inited = fupd c.inited t true ∧
    (c.initFirst t s).topics = c.topics := by
  rw [Combiner.initFirst]
  by_cases h : s > c.next_start <;> simp [h]

/-- `addWindow` appends one window and keeps everything except `next_start`. -/
theorem Combiner.addWindow_fields (c : Combiner) :
    c.addWindow.windows = c.windows ++
      [{ data := fun _ => none
         start_time := c.next_start
         end_time := c.next_start + c.window_duration
         statuses := fun _ => false
         overlaps := fun _ => 0 }] ∧
    c.addWindow.next_start = c.next_start + c.window_duration ∧
    c.addWindow.window_duration = c.window_duration ∧
    c.addWindow.inited = c.inited ∧
    c.addWindow.topics = c.topics := by
  rw [Combiner.addWindow]
  exact ⟨rfl, rfl, rfl, rfl, rfl⟩

/-- The window-creation loop only appends windows after the existing ones. -/
theorem Combiner.addWindowsFuel_prefix (n : ℕ) (c : Combiner) (e : ℚ) :
    ∃ tl, (Combiner.addWindowsFuel n c e).windows = c.windows ++ tl := by
  induction n generalizing c with
  | zero => exact ⟨[], by simp [Combiner.addWindowsFuel]⟩
  | succ n ih =>
    cases hL : c.windows.getLast? with
    | none => exact ⟨[], by simp [Combiner.addWindowsFuel, hL]⟩
    | some w =>
      by_cases hle : w.start_time ≤ e
      · obtain ⟨tl, htl⟩ := ih c.addWindow
        refine ⟨({ data := fun _ => none
                   start_time := c.next_start
                   end_time := c.next_start + c.window_duration
                   statuses := fun _ => false
                   overlaps := fun _ => 0 } : CWindow) :: tl, ?_⟩
        simp only [Combiner.addWindowsFuel, hL, hle, if_true]
        rw [htl, (Combiner.addWindow_fields c).1]
        simp [List.append_assoc]
      · exact ⟨[], by simp [Combiner.addWindowsFuel, hL, hle]⟩

/-- The window-creation loop does not touch the per-topic initialization
table, the topic list or the window duration. -/
theorem Combiner.addWindowsFuel_fields (n : ℕ) (c : Combiner) (e : ℚ) :
    (Combiner.addWindowsFuel n c e).inited = c.inited ∧
    (Combiner.addWindowsFuel n c e).topics = c.topics ∧
    (Combiner.addWindowsFuel n c e).window_duration = c.window_duration := by
  induction n generalizing c with
  | zero => exact ⟨rfl, rfl, rfl⟩
  | succ n ih =>
    cases hL : c.windows.getLast? with
    | none => simp [Combiner.addWindowsFuel, hL]
    | some w =>
      by_cases hle : w.start_time ≤ e
      · obtain ⟨h1, h2, h3⟩ := ih c.addWindow
        simp only [Combiner.addWindowsFuel, hL, hle, if_true]
        exact ⟨h1, h2, h3⟩
      · simp [Combiner.addWindowsFuel, hL, hle]

/-- If every existing window ends at or after `q` and the next window to be
opened would too, then after the window-creation loop every window still
ends at or after `q`. -/
theorem Combiner.addWindowsFuel_end_ge (n : ℕ) (c : Combiner) (e q : ℚ)
    (hdur : 0 ≤ c.window_duration)
    (hw : ∀ w ∈ c.windows, q ≤ w.end_time)
    (hns : q ≤ c.next_start + c.window_duration) :
    ∀ w ∈ (Combiner.addWindowsFuel n c e).windows, q ≤ w.end_time := by
  induction n generalizing c with
  | zero => exact hw
  | succ n ih =>
    cases hL : c.windows.getLast? with
    | none => simpa [Combiner.addWindowsFuel, hL] using hw
    | some w0 =>
      by_cases hle : w0.start_time ≤ e
      · simp only [Combiner.addWindowsFuel, hL, hle, if_true]
        refine ih c.addWindow hdur ?_ ?_
        · intro w' hmem
          rw [(Combiner.addWindow_fields c).1, List.mem_append] at hmem
          rcases hmem with hmem | hmem
          · exact hw w' hmem
          · simp only [List.mem_singleton] at hmem
            subst hmem
            exact hns
        · rw [(Combiner.addWindow_fields c).2.1, (Combiner.addWindow_fields c).2.2.1]
          linarith
      · simpa [Combiner.addWindowsFuel, hL, hle] using hw

/-- The scan loop preserves any lower bound on window end times. -/
theorem Combiner.scan_end_ge (t d : ℕ) (s e q : ℚ) (L : List CWindow)
    (h : ∀ w ∈ L, q ≤ w.end_time) :
    ∀ w ∈ Combiner.scan t d s e L, q ≤ w.end_time := by
  induction L with
  | nil => simp [Combiner.scan]
  | cons w ws ih =>
    have hw := h w (List.mem_cons_self w ws)
    have hws : ∀ w' ∈ ws, q ≤ w'.end_time := fun w' hm => h w' (List.mem_cons_of_mem w hm)
    intro w' hmem
    rw [Combiner.scan] at hmem
    split_ifs at hmem with h1 h2
    · rcases List.mem_cons.mp hmem with rfl | hmem
      · rw [(Combiner.stepW_times t d s e w).2]; exact hw
      · exact ih hws w' hmem
    · rcases List.mem_cons.mp hmem with rfl | hmem
      · exact hw
      · exact hws w' hmem
    · rcases List.mem_cons.mp hmem with rfl | hmem
      · rw [(Combiner.stepW_times t d s e w).2]; exact hw
      · exact ih hws w' hmem

/-- C2: the first `put` ever made on a topic (a) discards outright every open
window that ends before that datum's start time — the surviving window list
is exactly the ordered sublist of windows ending at or after it — and (b)
when the datum starts past the next-window-start pointer, the pointer is
advanced by a whole multiple of `window_duration`, to the largest such value
that does not overshoot the datum's start; moreover (c) after the whole
`put`, every window in the queue ends at or after the datum's start. -/
theorem combiner_first_put_discard_and_fast_forward
    (c : Combiner) (t d : ℕ) (s e : ℚ)
    (hinit : c.inited t = false)
    (hdur : 0 < c.window_duration)
    (hsort : c.windows.Pairwise fun a b => a.end_time ≤ b.end_time) :
    ((c.initFirst t s).windows = c.windows.filter fun w => decide (s ≤ w.end_time)) ∧
    (s > c.next_start →
      (c.initFirst t s).next_start ≤ s ∧
      s < (c.initFirst t s).next_start + c.window_duration ∧
      ∃ k : ℤ, (c.initFirst t s).next_start = c.next_start + c.window_duration * k) ∧
    ∀ w ∈ (c.put t d s e).windows, s ≤ w.end_time := by
  obtain ⟨hdur1, -, -⟩ := Combiner.initFirst_fields c t s
  have hwin1 : ∀ w ∈ (c.initFirst t s).windows, s ≤ w.end_time := by
    intro w hw
    rw [Combiner.initFirst_windows c t s hsort] at hw
    exact of_decide_eq_true (List.mem_filter.mp hw).2
  have hns1 : s ≤ (c.initFirst t s).next_start + (c.initFirst t s).window_duration := by
    rw [hdur1]
    by_cases hs : s > c.next_start
    · exact ((Combiner.initFirst_next_start_ff c t s hdur hs).2.1).le
    · rw [Combiner.initFirst_next_start_stay c t s hs]
      have hle : s ≤ c.next_start := not_lt.mp hs
      linarith
  refine ⟨Combiner.initFirst_windows c t s hsort,
    fun hs => Combiner.initFirst_next_start_ff c t s hdur hs, ?_⟩
  have hc2 : ∀ c2 : Combiner, (∀ w ∈ c2.windows, s ≤ w.end_time) →
      0 ≤ c2.window_duration →
      s ≤ c2.next_start + c2.window_duration →
      ∀ w ∈ (match c2.windows with
             | [] => c2
             | w0 :: _ =>
               if e < w0.start_time then c2
               else
                 let fuel := (⌈(e - c2.next_start) / c2.window_duration⌉).toNat + 2
                 let c3 := Combiner.addWindowsFuel fuel c2 e
                 { c3 with windows := Combiner.scan t d s e c3.windows }).windows,
        s ≤ w.end_time := by
    intro c2 hw hd hns w hmem
    split at hmem
    · exact hw w hmem
    · rename_i w0 tail heq
      by_cases hlt : e < w0.start_time
      · rw [if_pos hlt] at hmem
        exact hw w hmem
      · rw [if_neg hlt] at hmem
        exact Combiner.scan_end_ge t d s e s _
          (Combiner.addWindowsFuel_end_ge _ c2 e s hd hw hns) w hmem
  intro w hw2
  rw [Combiner.put, hinit] at hw2
  rw [if_neg Bool.false_ne_true] at hw2
  by_cases hemp : (c.initFirst t s).windows.isEmpty
  · rw [if_pos hemp] at hw2
    obtain ⟨haw, hans, hadur, -, -⟩ := Combiner.addWindow_fields (c.initFirst t s)
    have hw' : ∀ w' ∈ (c.initFirst t s).addWindow.windows, s ≤ w'.end_time := by
      intro w' hmem
      rw [haw, List.mem_append] at hmem
      rcases hmem with hmem | hmem
      · exact hwin1 w' hmem
      · simp only [List.mem_singleton] at hmem
        subst hmem
        exact hns1
    have hns2 : s ≤ (c.initFirst t s).addWindow.next_start +
        (c.initFirst t s).addWindow.window_duration := by
      rw [hans, hadur]
      rw [hdur1] at hns1 ⊢
      linarith
    have hd2 : (0:ℚ) ≤ (c.initFirst t s).addWindow.window_duration := by
      rw [hadur, hdur1]
      exact hdur.le
    exact hc2 ((c.initFirst t s).addWindow) hw' hd2 hns2 w hw2
  · rw [if_neg hemp] at hw2
    have hd1 : (0:ℚ) ≤ (c.initFirst t s).window_duration := by
      rw [hdur1]
      exact hdur.le
    exact hc2 (c.initFirst t s) hwin1 hd1 hns1 w hw2

/-- C2 witness: on `exCombiner2` (windows `[0,10)` and `[10,20)`, pointer at
20, duration 10, topic 0 uninitialized) the first put of topic 0 with a datum
over `[35, 36]` discards both stale windows and every window left by the full
`put` ends at or after 35; the pointer fast-forward lands within one duration
below 35. -/
theorem combiner_first_put_witness :
    exCombiner2.inited 0 = false ∧
    ((exCombiner2.initFirst 0 35).windows =
      exCombiner2.windows.filter fun w => decide ((35:ℚ) ≤ w.end_time)) ∧
    ((35:ℚ) > exCombiner2.next_start →
      (exCombiner2.initFirst 0 35).next_start ≤ 35 ∧
      (35:ℚ) < (exCombiner2.initFirst 0 35).next_start + exCombiner2.window_duration ∧
      ∃ k : ℤ, (exCombiner2.initFirst 0 35).next_start =
        exCombiner2.next_start + exCombiner2.window_duration * k) ∧
    ∀ w ∈ (exCombiner2.put 0 9 35 36).windows, (35:ℚ) ≤ w.end_time := by
  refine ⟨rfl, ?_, ?_, ?_⟩ <;>
  · have h := combiner_first_put_discard_and_fast_forward exCombiner2 0 9 35 36 rfl
      (by norm_num [exCombiner2])
      (by norm_num [exCombiner2, exWindow, exWindow2, List.pairwise_cons])
    first
      | exact h.1
      | exact h.2.1
      | exact h.2.2

/-! ## Claim C1: overlap competition inside a `Combiner` window -/

/-- A strictly positive overlap fraction forces the datum's interval to cross
both window boundaries strictly. -/
theorem Combiner.overlapFrac_pos_facts (s e ws we : ℚ) (hwe : ws < we)
    (h : 0 < Combiner.overlapFrac s e ws we) : s < we ∧ ws < e := by
  rw [Combiner.overlapFrac] at h
  split_ifs at h with hc
  · exact absurd h (lt_irrefl 0)
  · have hD : (0:ℚ) < we - ws := by linarith
    have hpos : (0:ℚ) < min e we - max s ws := by
      rcases div_pos_iff.mp h with ⟨hnum, -⟩ | ⟨-, hden⟩
      · exact hnum
      · linarith
    constructor
    · calc s ≤ max s ws := le_max_left _ _
        _ < min e we := by linarith
        _ ≤ we := min_le_right _ _
    · calc ws ≤ max s ws := le_max_right _ _
        _ < min e we := by linarith
        _ ≤ e := min_le_left _ _

/-- `stepW` when the window truly overlaps the datum and the new overlap
beats the stored one: the datum is recorded. -/
theorem Combiner.stepW_update (t d : ℕ) (s e : ℚ) (w : CWindow)
    (hne : ¬ w.end_time ≤ s) (hngt : ¬ w.start_time > e)
    (hgt : Combiner.overlapFrac s e w.start_time w.end_time > w.overlaps t) :
    Combiner.stepW t d s e w =
      { w with data := fupd w.data t (some d)
               overlaps := fupd w.overlaps t
                 (Combiner.overlapFrac s e w.start_time w.end_time) } := by
  rw [Combiner.stepW, if_neg hne, if_neg hngt]
  exact if_pos hgt

/-- `stepW` when the window truly overlaps the datum but the new overlap does
not beat the stored one: the window is untouched. -/
theorem Combiner.stepW_keep (t d : ℕ) (s e : ℚ) (w : CWindow)
    (hne : ¬ w.end_time ≤ s) (hngt : ¬ w.start_time > e)
    (hle : ¬ Combiner.overlapFrac s e w.start_time w.end_time > w.overlaps t) :
    Combiner.stepW t d s e w = w := by
  rw [Combiner.stepW, if_neg hne, if_neg hngt]
  exact if_neg hle

/-- The scan loop never changes the boundary times of the window at any
position. -/
theorem Combiner.scan_getElem?_times (t d : ℕ) (s e : ℚ) (L : List CWindow) (i : ℕ) :
    ((Combiner.scan t d s e L)[i]?.map fun w => w.start_time) =
      (L[i]?.map fun w => w.start_time) ∧
    ((Combiner.scan t d s e L)[i]?.map fun w => w.end_time) =
      (L[i]?.map fun w => w.end_time) := by
  induction L generalizing i with
  | nil => simp [Combiner.scan]
  | cons w ws ih =>
    rw [Combiner.scan]
    split_ifs with h1 h2
    · cases i with
      | zero =>
        simp [List.getElem?_cons_zero, (Combiner.stepW_times t d s e w).1,
          (Combiner.stepW_times t d s e w).2]
      | succ i =>
        simpa [List.getElem?_cons_succ] using ih i
    · exact ⟨rfl, rfl⟩
    · cases i with
      | zero =>
        simp [List.getElem?_cons_zero, (Combiner.stepW_times t d s e w).1,
          (Combiner.stepW_times t d s e w).2]
      | succ i =>
        simpa [List.getElem?_cons_succ] using ih i

/-- As long as no window before position `i` starts after the datum's end
(so the loop's `break` is not taken before reaching it), the window at
position `i` is transformed pointwise by `stepW`. -/
theorem Combiner.scan_getElem?_reach (t d : ℕ) (s e : ℚ) (L : List CWindow) (i : ℕ)
    (hreach : ∀ j, j < i → ∀ w', L[j]? = some w' → w'.start_time ≤ e) :
    (Combiner.scan t d s e L)[i]? = (L[i]?).map (Combiner.stepW t d s e) := by
  induction L generalizing i with
  | nil => simp [Combiner.scan]
  | cons w ws ih =>
    rw [Combiner.scan]
    split_ifs with h1 h2
    · cases i with
      | zero => simp [List.getElem?_cons_zero]
      | succ i =>
        simp only [List.getElem?_cons_succ]
        exact ih i fun j hj w' hw' =>
          hreach (j + 1) (by omega) w' (by simpa [List.getElem?_cons_succ] using hw')
    · cases i with
      | zero =>
        simp [List.getElem?_cons_zero, Combiner.stepW, h1, h2]
      | succ i =>
        have h0 : w.start_time ≤ e :=
          hreach 0 (by omega) w (by simp [List.getElem?_cons_zero])
        exact absurd h2 (not_lt.mpr h0)
    · cases i with
      | zero => simp [List.getElem?_cons_zero]
      | succ i =>
        simp only [List.getElem?_cons_succ]
        exact ih i fun j hj w' hw' =>
          hreach (j + 1) (by omega) w' (by simpa [List.getElem?_cons_succ] using hw')

/-- Combining the window-creation loop with the scan: the pre-existing window
at position `i` (the creation loop only appends behind it) is transformed
pointwise by `stepW` whenever the scan reaches it. -/
theorem Combiner.scan_addWF_getElem (t d : ℕ) (s e : ℚ) (c : Combiner)
    (n i : ℕ) (w : CWindow) (hw : c.windows[i]? = some w)
    (hreach : ∀ j, j < i → ∀ w', c.windows[j]? = some w' → w'.start_time ≤ e) :
    (Combiner.scan t d s e (Combiner.addWindowsFuel n c e).windows)[i]? =
      some (Combiner.stepW t d s e w) := by
  have hlen : i < c.windows.length := by
    by_contra hcon
    rw [List.getElem?_eq_none (le_of_not_lt hcon)] at hw
    exact Option.noConfusion hw
  obtain ⟨tl, htl⟩ := Combiner.addWindowsFuel_prefix n c e
  rw [htl, Combiner.scan_getElem?_reach t d s e _ i ?_]
  · rw [List.getElem?_append, if_pos hlen, hw]
    rfl
  · intro j hj w' hw'
    rw [List.getElem?_append, if_pos (lt_trans hj hlen)] at hw'
    exact hreach j hj w' hw'

/-- `put` on an already-initialized topic never changes the initialization
table, the topic list or the window duration. -/
theorem Combiner.put_fields_of_inited (c : Combiner) (t d : ℕ) (s e : ℚ)
    (hinit : c.inited t = true) :
    (c.put t d s e).inited = c.inited ∧
    (c.put t d s e).topics = c.topics ∧
    (c.put t d s e).window_duration = c.window_duration := by
  have key : ∀ c2 : Combiner, c2.inited = c.inited → c2.topics = c.topics →
      c2.window_duration = c.window_duration →
      ((match c2.windows with
        | [] => c2
        | w0 :: _ =>
          if e < w0.start_time then c2
          else
            let fuel := (⌈(e - c2.next_start) / c2.window_duration⌉).toNat + 2
            let c3 := Combiner.addWindowsFuel fuel c2 e
            { c3 with windows := Combiner.scan t d s e c3.windows }).inited = c.inited ∧
       (match c2.windows with
        | [] => c2
        | w0 :: _ =>
          if e < w0.start_time then c2
          else
            let fuel := (⌈(e - c2.next_start) / c2.window_duration⌉).toNat + 2
            let c3 := Combiner.addWindowsFuel fuel c2 e
            { c3 with windows := Combiner.scan t d s e c3.windows }).topics = c.topics ∧
       (match c2.windows with
        | [] => c2
        | w0 :: _ =>
          if e < w0.start_time then c2
          else
            let fuel := (⌈(e - c2.next_start) / c2.window_duration⌉).toNat + 2
            let c3 := Combiner.addWindowsFuel fuel c2 e
            { c3 with windows := Combiner.scan t d s e c3.windows }).window_duration
         = c.window_duration) := by
    intro c2 h1 h2 h3
    split
    · exact ⟨h1, h2, h3⟩
    · split_ifs
      · exact ⟨h1, h2, h3⟩
      · obtain ⟨f1, f2, f3⟩ := Combiner.addWindowsFuel_fields _ c2 e
        exact ⟨f1.trans h1, f2.trans h2, f3.trans h3⟩
  rw [Combiner.put, hinit, if_pos rfl]
  by_cases hemp : c.windows.isEmpty
  · rw [hemp, if_pos rfl]
    obtain ⟨-, -, g3, g4, g5⟩ := Combiner.addWindow_fields c
    exact key c.addWindow g4 g5 g3
  · rw [Bool.not_eq_true] at hemp
    rw [hemp, if_neg Bool.false_ne_true]
    exact key c rfl rfl rfl

/-- The heart of claim C1: on an initialized topic, when the oldest window
does not trigger the stale-datum early return and no window before position
`i` starts after the datum's end, `put` transforms the window at position `i`
pointwise by `stepW` (the creation loop only appends new windows behind). -/
theorem Combiner.put_getElem_step (c : Combiner) (t d : ℕ) (s e : ℚ)
    (i : ℕ) (w : CWindow) (hw : c.windows[i]? = some w)
    (hinit : c.inited t = true)
    (hreach : ∀ j, j < i → ∀ w', c.windows[j]? = some w' → w'.start_time ≤ e)
    (hret : ∀ w0, c.windows[0]? = some w0 → ¬ e < w0.start_time) :
    (c.put t d s e).windows[i]? = some (Combiner.stepW t d s e w) := by
  have hlen : i < c.windows.length := by
    by_contra hcon
    rw [List.getElem?_eq_none (le_of_not_lt hcon)] at hw
    exact Option.noConfusion hw
  have hne : c.windows ≠ [] :=
    List.ne_nil_of_length_pos (lt_of_le_of_lt (Nat.zero_le i) hlen)
  have hemp : c.windows.isEmpty = false := by
    rcases hcw : c.windows with _ | ⟨a, l⟩
    · exact absurd hcw hne
    · rfl
  rw [Combiner.put, hinit, if_pos rfl, hemp, if_neg Bool.false_ne_true]
  split
  · rename_i heq
    exact absurd heq hne
  · rename_i w0 tail heq
    have hret0 : ¬ e < w0.start_time := hret w0 (by rw [heq]; simp)
    rw [if_neg hret0]
    exact Combiner.scan_addWF_getElem t d s e c _ i w hw hreach

/-- Two successive `put`s of topic `t` into an initialized combiner, both
overlapping the (fresh) window at position `i`: the slot afterwards holds the
second datum exactly when its overlap strictly exceeds the first one's, and
otherwise keeps the first (earlier-arrived) datum. -/
theorem Combiner.two_puts_slot (c : Combiner) (t i : ℕ) (da db : ℕ)
    (sa ea sb eb : ℚ) (w : CWindow)
    (hw : c.windows[i]? = some w)
    (hinit : c.inited t = true)
    (hsort : c.windows.Pairwise fun a b => a.start_time ≤ b.start_time)
    (hwe : w.start_time < w.end_time)
    (hfresh : w.overlaps t = 0)
    (hoa : 0 < Combiner.overlapFrac sa ea w.start_time w.end_time)
    (hob : 0 < Combiner.overlapFrac sb eb w.start_time w.end_time) :
    (((c.put t da sa ea).put t db sb eb).windows[i]?.map fun w' => w'.data t) =
      some (some (if Combiner.overlapFrac sa ea w.start_time w.end_time <
                    Combiner.overlapFrac sb eb w.start_time w.end_time
                  then db else da)) := by
  obtain ⟨hsa, hea⟩ := Combiner.overlapFrac_pos_facts sa ea _ _ hwe hoa
  obtain ⟨hsb, heb⟩ := Combiner.overlapFrac_pos_facts sb eb _ _ hwe hob
  have hlen : i < c.windows.length := by
    by_contra hcon
    rw [List.getElem?_eq_none (le_of_not_lt hcon)] at hw
    exact Option.noConfusion hw
  have hwi : c.windows[i] = w := by
    have h2 := List.getElem?_eq_getElem hlen
    rw [h2] at hw
    exact Option.some.inj hw
  have hstart_le : ∀ j w', j ≤ i → c.windows[j]? = some w' →
      w'.start_time ≤ w.start_time := by
    intro j w' hji hw'
    have hjlen : j < c.windows.length := Nat.lt_of_le_of_lt hji hlen
    have hwj : c.windows[j] = w' := by
      have h2 := List.getElem?_eq_getElem hjlen
      rw [h2] at hw'
      exact Option.some.inj hw'
    rcases lt_or_eq_of_le hji with hlt | heq
    · have hp := (List.pairwise_iff_get.mp hsort) ⟨j, hjlen⟩ ⟨i, hlen⟩ hlt
      rw [← hwj, ← hwi]
      exact hp
    · subst heq
      rw [← hwj, hwi]
  have hreach1 : ∀ j, j < i → ∀ w', c.windows[j]? = some w' → w'.start_time ≤ ea :=
    fun j hj w' hw' => le_trans (hstart_le j w' (le_of_lt hj) hw') (le_of_lt hea)
  have hret1 : ∀ w0, c.windows[0]? = some w0 → ¬ ea < w0.start_time :=
    fun w0 hw0 =>
      not_lt.mpr (le_trans (hstart_le 0 w0 (Nat.zero_le i) hw0) (le_of_lt hea))
  -- effect of the first put on the windows up to position i
  have hput_j : ∀ j (hji : j ≤ i), (c.put t da sa ea).windows[j]? =
      some (Combiner.stepW t da sa ea
        (c.windows.get (Fin.mk j (Nat.lt_of_le_of_lt hji hlen)))) := by
    intro j hji
    exact Combiner.put_getElem_step c t da sa ea j _
      (List.getElem?_eq_getElem (Nat.lt_of_le_of_lt hji hlen)) hinit
      (fun j' hj' w' hw' => hreach1 j' (lt_of_lt_of_le hj' hji) w' hw')
      hret1
  have hstep1 : Combiner.stepW t da sa ea w =
      { w with data := fupd w.data t (some da)
               overlaps := fupd w.overlaps t
                 (Combiner.overlapFrac sa ea w.start_time w.end_time) } :=
    Combiner.stepW_update t da sa ea w (not_le.mpr hsa) (not_lt.mpr (le_of_lt hea))
      (by rw [hfresh]; exact hoa)
  have hw1 : (c.put t da sa ea).windows[i]? =
      some { w with data := fupd w.data t (some da)
                    overlaps := fupd w.overlaps t
                      (Combiner.overlapFrac sa ea w.start_time w.end_time) } := by
    have := hput_j i (le_refl i)
    rw [this]
    congr 1
    rw [← hstep1]
    exact congrArg (Combiner.stepW t da sa ea) hwi
  -- preconditions of the second put
  have hinit2 : (c.put t da sa ea).inited t = true := by
    rw [(Combiner.put_fields_of_inited c t da sa ea hinit).1]
    exact hinit
  have hreach2 : ∀ j, j < i → ∀ w',
      (c.put t da sa ea).windows[j]? = some w' → w'.start_time ≤ eb := by
    intro j hj w' hw'
    rw [hput_j j (le_of_lt hj)] at hw'
    have h := Option.some.inj hw'
    rw [← h, (Combiner.stepW_times t da sa ea _).1]
    exact le_trans
      (hstart_le j _ (le_of_lt hj)
        (List.getElem?_eq_getElem (Nat.lt_of_le_of_lt (le_of_lt hj) hlen)))
      (le_of_lt heb)
  have hret2 : ∀ w0, (c.put t da sa ea).windows[0]? = some w0 →
      ¬ eb < w0.start_time := by
    intro w0 hw0
    rw [hput_j 0 (Nat.zero_le i)] at hw0
    have h := Option.some.inj hw0
    rw [← h, (Combiner.stepW_times t da sa ea _).1]
    exact not_lt.mpr (le_trans
      (hstart_le 0 _ (Nat.zero_le i)
        (List.getElem?_eq_getElem (Nat.lt_of_le_of_lt (Nat.zero_le i) hlen)))
      (le_of_lt heb))
  have hstep2 := Combiner.put_getElem_step (c.put t da sa ea) t db sb eb i _
    hw1 hinit2 hreach2 hret2
  rw [hstep2, Option.map_some']
  -- evaluate the second stepW on the updated window
  have hw1o : ({ w with data := fupd w.data t (some da)
                        overlaps := fupd w.overlaps t
                          (Combiner.overlapFrac sa ea w.start_time w.end_time) }
      : CWindow).overlaps t = Combiner.overlapFrac sa ea w.start_time w.end_time :=
    fupd_same _ _ _
  by_cases hcmp : Combiner.overlapFrac sa ea w.start_time w.end_time <
      Combiner.overlapFrac sb eb w.start_time w.end_time
  · have hupd := Combiner.stepW_update t db sb eb
      { w with data := fupd w.data t (some da)
               overlaps := fupd w.overlaps t
                 (Combiner.overlapFrac sa ea w.start_time w.end_time) }
      (not_le.mpr hsb) (not_lt.mpr (le_of_lt heb)) (by rw [hw1o]; exact hcmp)
    rw [hupd, if_pos hcmp]
    simp [fupd_same]
  · have hkeep := Combiner.stepW_keep t db sb eb
      { w with data := fupd w.data t (some da)
               overlaps := fupd w.overlaps t
                 (Combiner.overlapFrac sa ea w.start_time w.end_time) }
      (not_le.mpr hsb) (not_lt.mpr (le_of_lt heb)) (by rw [hw1o]; exact hcmp)
    rw [hkeep, if_neg hcmp]
    simp [fupd_same]

/-- C1: for any window of an initialized topic in the `Combiner` and two data
put on that topic that both (positively) overlap that fresh window, the datum
stored in the window's slot after both `put`s is the one with the strictly
greater overlap fraction, in whichever order the two arrive; when the
overlaps are equal, the earlier-arrived datum is retained (strict-greater
comparison, first-wins on ties). -/
theorem combiner_overlap_greater_wins (c : Combiner) (t i d1 d2 : ℕ)
    (s1 e1 s2 e2 : ℚ) (w : CWindow)
    (hw : c.windows[i]? = some w)
    (hinit : c.inited t = true)
    (hsort : c.windows.Pairwise fun a b => a.start_time ≤ b.start_time)
    (hwe : w.start_time < w.end_time)
    (hfresh : w.overlaps t = 0)
    (ho1 : 0 < Combiner.overlapFrac s1 e1 w.start_time w.end_time)
    (ho2 : 0 < Combiner.overlapFrac s2 e2 w.start_time w.end_time) :
    (((c.put t d1 s1 e1).put t d2 s2 e2).windows[i]?.map fun w' => w'.data t) =
      some (some (if Combiner.overlapFrac s1 e1 w.start_time w.end_time <
                    Combiner.overlapFrac s2 e2 w.start_time w.end_time
                  then d2 else d1)) ∧
    (((c.put t d2 s2 e2).put t d1 s1 e1).windows[i]?.map fun w' => w'.data t) =
      some (some (if Combiner.overlapFrac s2 e2 w.start_time w.end_time <
                    Combiner.overlapFrac s1 e1 w.start_time w.end_time
                  then d1 else d2)) :=
  ⟨Combiner.two_puts_slot c t i d1 d2 s1 e1 s2 e2 w hw hinit hsort hwe hfresh ho1 ho2,
   Combiner.two_puts_slot c t i d2 d1 s2 e2 s1 e1 w hw hinit hsort hwe hfresh ho2 ho1⟩

/-- C1 witness: on `exCombiner1` (one fresh window `[0, 10)`, topic 0
initialized), datum 1 over `[0, 5]` (overlap 1/2) and datum 2 over `[0, 10]`
(overlap 1): whichever arrives first, the slot ends up holding datum 2. -/
theorem combiner_overlap_witness :
    exCombiner1.windows[0]? = some exWindow ∧
    (0:ℚ) < Combiner.overlapFrac 0 5 exWindow.start_time exWindow.end_time ∧
    (0:ℚ) < Combiner.overlapFrac 0 10 exWindow.start_time exWindow.end_time ∧
    (((exCombiner1.put 0 1 0 5).put 0 2 0 10).windows[0]?.map fun w' => w'.data 0) =
      some (some 2) ∧
    (((exCombiner1.put 0 2 0 10).put 0 1 0 5).windows[0]?.map fun w' => w'.data 0) =
      some (some 2) := by
  have h := combiner_overlap_greater_wins exCombiner1 0 0 1 2 0 5 0 10 exWindow
    (by simp [exCombiner1]) rfl (by simp [exCombiner1])
    (by norm_num [exWindow]) rfl
    (by norm_num [Combiner.overlapFrac, exWindow])
    (by norm_num [Combiner.overlapFrac, exWindow])
  refine ⟨by simp [exCombiner1], by norm_num [Combiner.overlapFrac, exWindow],
    by norm_num [Combiner.overlapFrac, exWindow], ?_, ?_⟩
  · rw [h.1]
    norm_num [Combiner.overlapFrac, exWindow]
  · rw [h.2]
    norm_num [Combiner.overlapFrac, exWindow]
